import Mathlib

/-
Verification development for the economic-model core of the midlife-wealth-levy
repository (src/chart-manager.js, functions toParams .. tauSweep).

Modelling conventions:
- JavaScript double arithmetic is embedded into the reals; Math.exp is Real.exp
  and Math.pow on a nonnegative base is Real.rpow.
- Code that can throw is embedded as Except Err.
- The raw-input validation layer additionally models the JavaScript non-finite
  values (Infinity, -Infinity, NaN) with the JsNum type, because toParams
  inspects finiteness of its inputs and division by zero produces such values.
- Loops are embedded as fuel recursion with the exact iteration budgets of the
  source (80 bisection iterations, 40 bracket doublings, 50 iterations and 20
  doublings in the so-called optimized solver).
-/

noncomputable section

/-! ## Constants (src/chart-manager.js lines 417-421) -/

def EPSILON : ℝ := 1e-10

def MAX_BISECTION_ITERATIONS : ℕ := 80

def MAX_BRACKET_TRIES : ℕ := 40

def LARGE_NEGATIVE : ℝ := -1e99

/-! ## Error taxonomy

The source throws plain `Error` objects with messages; the spec classifies them
as ValidationError / InvalidParameterError / BracketingError.  Each constructor
carries the message of the corresponding throw site. -/

inductive Err where
  | validation : String → Err
  | invalidParameter : String → Err
  | bracketing : String → Err
deriving DecidableEq

/-! ## JavaScript number values for the validation layer -/

inductive JsNum where
  | fin : ℝ → JsNum
  | posInf : JsNum
  | negInf : JsNum
  | nan : JsNum

def JsNum.isFinite : JsNum → Bool
  | .fin _ => true
  | _ => false

/-- The real value of a finite JsNum (0 for the non-finite values; only read
after an isFinite check). -/
def JsNum.val : JsNum → ℝ
  | .fin x => x
  | _ => 0

/-- JavaScript division of finite doubles: division by (+)0 yields a signed
infinity, or NaN for 0/0. -/
def jsDivR (num den : ℝ) : JsNum :=
  if den = 0 then
    if num > 0 then .posInf else if num < 0 then .negInf else .nan
  else .fin (num / den)

/-- The eleven raw inputs of toParams, as parsed by parseFloat (a failed parse
is NaN, hence non-finite). -/
structure RawInputs where
  r : JsNum
  rho : JsNum
  gamma : JsNum
  eta : JsNum
  T1 : JsNum
  T2 : JsNum
  beta : JsNum
  w0 : JsNum
  y : JsNum
  zeta : JsNum
  tau : JsNum

def RawInputs.allFinite (inp : RawInputs) : Bool :=
  inp.r.isFinite && inp.rho.isFinite && inp.gamma.isFinite && inp.eta.isFinite &&
  inp.T1.isFinite && inp.T2.isFinite && inp.beta.isFinite && inp.w0.isFinite &&
  inp.y.isFinite && inp.zeta.isFinite && inp.tau.isFinite

/-- Parameter object as produced by toParams, with the derived fields that
divide by gamma kept as JsNum (gamma = 0 silently yields non-finite values in
the source, it is not rejected). -/
structure ParamsJs where
  r : ℝ
  rho : ℝ
  gamma : ℝ
  eta : ℝ
  T1 : ℝ
  T2 : ℝ
  beta : ℝ
  w0 : ℝ
  y : ℝ
  zeta : ℝ
  tau : ℝ
  T : ℝ
  alpha : JsNum
  g : JsNum
  kappa : JsNum
  R : ℝ

/-- toParams (src/chart-manager.js lines 426-461): validates each raw input in
source order (throwing at the first non-finite one) and derives T, alpha, g,
kappa, R.  The DOM lookup is environment glue and is not modelled; the value of
each input element after parseFloat is the JsNum field. -/
def toParams (inp : RawInputs) : Except Err ParamsJs :=
  if !inp.r.isFinite then .error (.validation "Invalid numeric value for r")
  else if !inp.rho.isFinite then .error (.validation "Invalid numeric value for rho")
  else if !inp.gamma.isFinite then .error (.validation "Invalid numeric value for gamma")
  else if !inp.eta.isFinite then .error (.validation "Invalid numeric value for eta")
  else if !inp.T1.isFinite then .error (.validation "Invalid numeric value for T1")
  else if !inp.T2.isFinite then .error (.validation "Invalid numeric value for T2")
  else if !inp.beta.isFinite then .error (.validation "Invalid numeric value for beta")
  else if !inp.w0.isFinite then .error (.validation "Invalid numeric value for w0")
  else if !inp.y.isFinite then .error (.validation "Invalid numeric value for y")
  else if !inp.zeta.isFinite then .error (.validation "Invalid numeric value for zeta")
  else if !inp.tau.isFinite then .error (.validation "Invalid numeric value for tau")
  else
    let r := inp.r.val
    let rho := inp.rho.val
    let gamma := inp.gamma.val
    let eta := inp.eta.val
    let T1 := inp.T1.val
    let T2 := inp.T2.val
    .ok { r := r, rho := rho, gamma := gamma, eta := eta, T1 := T1, T2 := T2,
          beta := inp.beta.val, w0 := inp.w0.val, y := inp.y.val,
          zeta := inp.zeta.val, tau := inp.tau.val,
          T := T1 + T2,
          alpha := jsDivR eta gamma,
          g := jsDivR (r - rho) gamma,
          kappa := jsDivR (rho + (gamma - 1) * r) gamma,
          R := Real.exp (r * (T1 + T2)) }

/-! ## Derived parameter set over the reals

Downstream of validation (finite inputs, gamma distinct from 0 in every run
the later functions are specified for) the arithmetic is real arithmetic; this
is the parameter object the solver, trajectory and sweep functions read. -/

structure Params where
  r : ℝ
  rho : ℝ
  gamma : ℝ
  eta : ℝ
  T1 : ℝ
  T2 : ℝ
  beta : ℝ
  w0 : ℝ
  y : ℝ
  zeta : ℝ
  tau : ℝ

def Params.T (p : Params) : ℝ := p.T1 + p.T2

def Params.alpha (p : Params) : ℝ := p.eta / p.gamma

def Params.g (p : Params) : ℝ := (p.r - p.rho) / p.gamma

def Params.kappa (p : Params) : ℝ := (p.rho + (p.gamma - 1) * p.r) / p.gamma

def Params.R (p : Params) : ℝ := Real.exp (p.r * (p.T1 + p.T2))

/-- The annuity-factor closure p.P (lines 452-458): linear branch for
|kappa| < EPSILON, exact formula otherwise. -/
def Params.P (p : Params) (H : ℝ) : ℝ :=
  if |p.kappa| < EPSILON then H else (1 - Real.exp (-p.kappa * H)) / p.kappa

/-! ## Coefficients, RHS and the terminal equation (lines 466-510) -/

def K1 (p : Params) : Except Err ℝ :=
  if p.beta ≤ 0 then .error (.invalidParameter "Beta (bequest weight) must be positive")
  else .ok (p.beta ^ (-1 / p.gamma) *
    Real.exp ((p.gamma - 1) / p.gamma * p.r * (p.T1 + p.T2)) *
    (1 - p.tau) ^ ((p.gamma - 1) / p.gamma) * p.P p.T1)

def K2 (p : Params) : Except Err ℝ :=
  if p.beta ≤ 0 then .error (.invalidParameter "Beta (bequest weight) must be positive")
  else .ok (p.beta ^ (-1 / p.gamma) *
    Real.exp ((p.gamma - 1) / p.gamma * p.r * p.T2 - p.rho / p.gamma * p.T1) *
    p.P p.T2)

/-- The value computed by RHS once the r-guard has passed. -/
def RHSval (p : Params) : ℝ :=
  p.R * (1 - p.tau) * (p.w0 + p.y / p.r) +
    Real.exp (p.r * p.T2) * p.tau * (p.y / p.r) - p.y / p.r

def RHS (p : Params) : Except Err ℝ :=
  if |p.r| < EPSILON then
    .error (.invalidParameter "Interest rate r must be non-zero for y/r transform")
  else .ok (RHSval p)

/-- F(W) (lines 507-510).  The source re-calls RHS(p) inside F_of_W; every
caller reaches F_of_W only after RHS(p) has succeeded, so the guard cannot fire
there and the plain value RHSval is used. -/
def F_of_W (W : ℝ) (p : Params) (K1v K2v : ℝ) : ℝ :=
  if W < 0 then LARGE_NEGATIVE else W + (K1v + K2v) * W ^ p.alpha - RHSval p

structure SolverResult where
  WT : ℝ
  K1v : ℝ
  K2v : ℝ

/-! ## Bisection fallback solver (lines 583-627) -/

/-- The bisection loop: mid = 0.5*(lo+hi), break when |F(mid)| < EPSILON,
shrink towards the sign change otherwise; on exhaustion the last computed mid
is returned (mid starts as 0). -/
def bisectLoop (f : ℝ → ℝ) : ℕ → ℝ → ℝ → ℝ → ℝ
  | 0, _, _, mid => mid
  | n + 1, lo, hi, _ =>
    let mid := 0.5 * (lo + hi)
    let fmid := f mid
    if |fmid| < EPSILON then mid
    else if fmid > 0 then bisectLoop f n lo mid mid
    else bisectLoop f n mid hi mid

/-- Bracket expansion: the bracket test runs on the initial hi and after each
of up to MAX_BRACKET_TRIES doublings; failure is a BracketingError. -/
def expandBracket (f : ℝ → ℝ) (flo : ℝ) : ℕ → ℝ → Except Err ℝ
  | 0, hi =>
    if flo < 0 ∧ f hi > 0 then .ok hi
    else .error (.bracketing "Failed to bracket W_T solution")
  | n + 1, hi =>
    if flo < 0 ∧ f hi > 0 then .ok hi
    else expandBracket f flo n (2 * hi)

def solveWTBisection (p : Params) : Except Err SolverResult :=
  match K1 p with
  | .error e => .error e
  | .ok K1v =>
    match K2 p with
    | .error e => .error e
    | .ok K2v =>
      match RHS p with
      | .error e => .error e
      | .ok rhsValue =>
        match expandBracket (fun W => F_of_W W p K1v K2v) (F_of_W 0 p K1v K2v)
            MAX_BRACKET_TRIES (max EPSILON rhsValue) with
        | .error e => .error e
        | .ok hi =>
          .ok ⟨bisectLoop (fun W => F_of_W W p K1v K2v) MAX_BISECTION_ITERATIONS 0 hi 0,
            K1v, K2v⟩

/-! ## "Optimized" solver (lines 515-578)

Despite the Brent comments in the source this is also plain bisection, with
its own bracket [0, max(2*RHS, 10)], its own tolerance 1e-12, budget 50, and
an extra width-based termination test. -/

def brentLoop (f : ℝ → ℝ) : ℕ → ℝ → ℝ → ℝ → ℝ → ℝ
  | 0, a, b, _, _ => (a + b) / 2
  | n + 1, a, b, fa, fb =>
    let c := (a + b) / 2
    let fc := f c
    if |fc| < 1e-12 ∨ |b - a| < 1e-12 then c
    else if fa * fc < 0 then brentLoop f n a c fa fc
    else brentLoop f n c b fc fb

/-- The expanding search of the optimized path: up to 20 doublings of b,
stopping at a sign change; unlike expandBracket it never fails, a still-invalid
bracket is simply used. -/
def brentExpand (f : ℝ → ℝ) (fa : ℝ) : ℕ → ℝ → ℝ × ℝ
  | 0, b => (b, f b)
  | n + 1, b =>
    let b2 := 2 * b
    let fb2 := f b2
    if fa * fb2 < 0 then (b2, fb2) else brentExpand f fa n b2

/-- The objective closure of the optimized path (lines 521-524); identical in
form to F_of_W with the captured rhsValue. -/
def objective (p : Params) (K1v K2v rhsValue : ℝ) : ℝ → ℝ := fun W =>
  if W < 0 then LARGE_NEGATIVE else W + (K1v + K2v) * W ^ p.alpha - rhsValue

/-- The bracket set-up and loop of the optimized path (lines 530-570):
bracket [0, max(2*RHS, 10)], expansion only when the initial bracket shows no
sign change (and with no failure mode), then the 50-iteration loop. -/
def brentSolve (p : Params) (K1v K2v rhsValue : ℝ) : ℝ :=
  let f := objective p K1v K2v rhsValue
  let b0 : ℝ := max (rhsValue * 2) 10
  let bb := if f 0 * f b0 ≥ 0 then brentExpand f (f 0) 20 b0 else (b0, f b0)
  brentLoop f 50 0 bb.1 (f 0) bb.2

def solveWTOptimized (p : Params) (mlAvailable : Bool) : Except Err SolverResult :=
  match K1 p with
  | .error e => .error e
  | .ok K1v =>
    match K2 p with
    | .error e => .error e
    | .ok K2v =>
      match RHS p with
      | .error e => .error e
      | .ok rhsValue =>
        if mlAvailable then
          .ok ⟨brentSolve p K1v K2v rhsValue, K1v, K2v⟩
        else solveWTBisection p

/-- Main solver interface (lines 632-634). -/
def solveWT (p : Params) (mlAvailable : Bool) : Except Err SolverResult :=
  solveWTOptimized p mlAvailable

/-! ## Consumption levels (lines 670-687) -/

def levelsFromWT (WT : ℝ) (p : Params) : Except Err (ℝ × ℝ) :=
  if p.beta ≤ 0 then .error (.invalidParameter "Beta (bequest weight) must be positive")
  else
    let B := (p.beta ^ (-1 : ℝ) * Real.exp (-p.rho * p.T1) * Real.exp (-p.r * p.T2) *
      WT ^ p.eta) ^ (1 / p.gamma)
    let A := p.beta ^ (-1 / p.gamma) * Real.exp (-p.r * (p.T1 + p.T2) / p.gamma) *
      (1 - p.tau) ^ (-1 / p.gamma) * WT ^ (p.eta / p.gamma)
    .ok (A, B)

/-! ## Trajectories (lines 692-729) -/

structure Trajectory where
  times : List ℝ
  c : List ℝ
  W : List ℝ
  W1m : ℝ
  W1p : ℝ

/-- One sample of the piecewise closed forms: pre-levy for t < T1 - EPSILON,
post-levy (with dt = max(0, t - T1)) otherwise; returns (c(t), W(t)). -/
def trajSample (p : Params) (A B X0 X1p t : ℝ) : ℝ × ℝ :=
  if t < p.T1 - EPSILON then
    (A * Real.exp (p.g * t), Real.exp (p.r * t) * (X0 - A * p.P t) - p.y / p.r)
  else
    let dt := max 0 (t - p.T1)
    (B * Real.exp (p.g * dt), Real.exp (p.r * dt) * (X1p - B * p.P dt) - p.y / p.r)

def trajectories (p : Params) (WT A B : ℝ) (n : ℕ) : Trajectory :=
  let X0 := p.w0 + p.y / p.r
  let tEnd := p.T1 + p.T2
  let X1m := Real.exp (p.r * p.T1) * (X0 - A * p.P p.T1)
  let X1p := (1 - p.tau) * X1m + p.tau * (p.y / p.r)
  let ts := (List.range (n + 1)).map fun i : ℕ => tEnd * (i : ℝ) / (n : ℝ)
  { times := ts
    c := ts.map fun t => (trajSample p A B X0 X1p t).1
    W := ts.map fun t => (trajSample p A B X0 X1p t).2
    W1m := X1m - p.y / p.r
    W1p := X1p - p.y / p.r }

/-! ## Tau sweep (lines 735-768)

The source mutates p.tau in place each iteration and restores it at the end;
this is embedded by threading the parameter object through the loop and
returning its final state alongside the sweep data. -/

structure SweepResult where
  taus : List ℝ
  W1m : List ℝ
  W1p : List ℝ
  WT : List ℝ

/-- The data part of one sweep iteration: solve at the substituted tau; any
error skips the point (the catch block), otherwise the point is appended to
all four lists. -/
def tauSweepData (ml : Bool) (acc : SweepResult) (pcur : Params) (tau : ℝ) : SweepResult :=
  match solveWT pcur ml with
  | .error _ => acc
  | .ok res =>
    match levelsFromWT res.WT pcur with
    | .error _ => acc
    | .ok AB =>
      let traj := trajectories pcur res.WT AB.1 AB.2 200
      { taus := acc.taus ++ [tau], W1m := acc.W1m ++ [traj.W1m],
        W1p := acc.W1p ++ [traj.W1p], WT := acc.WT ++ [res.WT] }

/-- One sweep iteration: the parameter object leaves the iteration with tau
overwritten by the sweep value (the source mutates p.tau in place). -/
def tauSweepStep (ml : Bool) (st : SweepResult × Params) (i : ℕ) (n : ℕ) : SweepResult × Params :=
  let tau := ((i : ℝ) / (n : ℝ)) * 0.8
  let pcur := { st.2 with tau := tau }
  (tauSweepData ml st.1 pcur tau, pcur)

def tauSweep (p : Params) (n : ℕ) (ml : Bool) : SweepResult × Params :=
  let origTau := p.tau
  let final := (List.range (n + 1)).foldl (fun st i => tauSweepStep ml st i n) (⟨[], [], [], []⟩, p)
  (final.1, { final.2 with tau := origTau })

/-! ## Bracket-state view of the two loops

To reason about exhaustion of the iteration budgets, the evolution of the
bracket alone (which never depends on the break tests) is captured as an
iterated step function; the loops agree with it as long as no break fires. -/

def midOf (st : ℝ × ℝ) : ℝ := 0.5 * (st.1 + st.2)

def bisectStep (f : ℝ → ℝ) (st : ℝ × ℝ) : ℝ × ℝ :=
  if f (0.5 * (st.1 + st.2)) > 0 then (st.1, 0.5 * (st.1 + st.2))
  else (0.5 * (st.1 + st.2), st.2)

/-- No midpoint among the first n brackets meets the bisection tolerance. -/
def noTolBreak (f : ℝ → ℝ) (st : ℝ × ℝ) (n : ℕ) : Prop :=
  ∀ i < n, ¬ |f (midOf ((bisectStep f)^[i] st))| < EPSILON

/-- Midpoint of the (a, b, fa) state of the optimized loop. -/
def cOf (st : ℝ × ℝ × ℝ) : ℝ := (st.1 + st.2.1) / 2

def brentStep (f : ℝ → ℝ) (st : ℝ × ℝ × ℝ) : ℝ × ℝ × ℝ :=
  if st.2.2 * f ((st.1 + st.2.1) / 2) < 0 then (st.1, (st.1 + st.2.1) / 2, st.2.2)
  else ((st.1 + st.2.1) / 2, st.2.1, f ((st.1 + st.2.1) / 2))

/-- Neither break test of the optimized loop fires in the first n states. -/
def noBrentBreak (f : ℝ → ℝ) (st : ℝ × ℝ × ℝ) (n : ℕ) : Prop :=
  ∀ i < n, ¬ (|f (cOf ((brentStep f)^[i] st))| < 1e-12 ∨
    |((brentStep f)^[i] st).2.1 - ((brentStep f)^[i] st).1| < 1e-12)

lemma midOf_mk (x y : ℝ) : midOf (x, y) = 0.5 * (x + y) := rfl

lemma cOf_mk (x y z : ℝ) : cOf (x, y, z) = (x + y) / 2 := rfl

lemma bisectStep_mk (f : ℝ → ℝ) (x y : ℝ) :
    bisectStep f (x, y) =
      if f (0.5 * (x + y)) > 0 then (x, 0.5 * (x + y)) else (0.5 * (x + y), y) := rfl

lemma brentStep_mk (f : ℝ → ℝ) (x y z : ℝ) :
    brentStep f (x, y, z) =
      if z * f ((x + y) / 2) < 0 then (x, (x + y) / 2, z)
      else ((x + y) / 2, y, f ((x + y) / 2)) := rfl

lemma bisectLoop_succ (f : ℝ → ℝ) (n : ℕ) (lo hi mid : ℝ) :
    bisectLoop f (n + 1) lo hi mid =
      if |f (0.5 * (lo + hi))| < EPSILON then 0.5 * (lo + hi)
      else if f (0.5 * (lo + hi)) > 0 then
        bisectLoop f n lo (0.5 * (lo + hi)) (0.5 * (lo + hi))
      else bisectLoop f n (0.5 * (lo + hi)) hi (0.5 * (lo + hi)) := rfl

lemma brentLoop_succ (f : ℝ → ℝ) (n : ℕ) (a b fa fb : ℝ) :
    brentLoop f (n + 1) a b fa fb =
      if |f ((a + b) / 2)| < 1e-12 ∨ |b - a| < 1e-12 then (a + b) / 2
      else if fa * f ((a + b) / 2) < 0 then brentLoop f n a ((a + b) / 2) fa (f ((a + b) / 2))
      else brentLoop f n ((a + b) / 2) b (f ((a + b) / 2)) fb := rfl

lemma expandBracket_succ (f : ℝ → ℝ) (flo : ℝ) (n : ℕ) (hi : ℝ) :
    expandBracket f flo (n + 1) hi =
      if flo < 0 ∧ f hi > 0 then .ok hi else expandBracket f flo n (2 * hi) := rfl

/-- The bisection loop only ever returns previous midpoints of nonnegative
brackets (or the initial mid), hence a nonnegative value. -/
lemma bisectLoop_nonneg (f : ℝ → ℝ) :
    ∀ (n : ℕ) (lo hi mid : ℝ), 0 ≤ lo → 0 ≤ hi → 0 ≤ mid →
      0 ≤ bisectLoop f n lo hi mid := by
  intro n
  induction n with
  | zero => intro lo hi mid _ _ h; exact h
  | succ m ih =>
    intro lo hi mid hlo hhi _
    rw [bisectLoop_succ]
    have hm : 0 ≤ 0.5 * (lo + hi) := by linarith
    split_ifs
    · exact hm
    · exact ih lo _ _ hlo hm hm
    · exact ih _ hi _ hm hhi hm

/-- A successful bracket expansion started from a positive hi returns a
positive hi. -/
lemma expandBracket_pos (f : ℝ → ℝ) (flo : ℝ) :
    ∀ (n : ℕ) (hi hi2 : ℝ), expandBracket f flo n hi = .ok hi2 → 0 < hi → 0 < hi2 := by
  intro n
  induction n with
  | zero =>
    intro hi hi2 h hpos
    unfold expandBracket at h
    split_ifs at h
    · injection h with h2
      rw [← h2]
      exact hpos
  | succ m ih =>
    intro hi hi2 h hpos
    rw [expandBracket_succ] at h
    split_ifs at h
    · injection h with h2
      rw [← h2]
      exact hpos
    · exact ih (2 * hi) hi2 h (by linarith)

/-- If no midpoint of the first n brackets meets the tolerance, the
n-iteration bisection loop returns the midpoint of the bracket entering its
final iteration. -/
lemma bisectLoop_exhaust (f : ℝ → ℝ) :
    ∀ (n : ℕ) (st : ℝ × ℝ) (mid0 : ℝ), 1 ≤ n → noTolBreak f st n →
      bisectLoop f n st.1 st.2 mid0 = midOf ((bisectStep f)^[n - 1] st) := by
  intro n
  induction n with
  | zero => intro st mid0 h _; exact absurd h (by omega)
  | succ m ih =>
    intro st mid0 _ hnb
    have hmid : ¬ |f (0.5 * (st.1 + st.2))| < EPSILON := by
      have h0 := hnb 0 (Nat.succ_pos m)
      simpa [midOf] using h0
    rw [bisectLoop_succ, if_neg hmid]
    simp only [Nat.add_sub_cancel]
    by_cases hpos : f (0.5 * (st.1 + st.2)) > 0
    · rw [if_pos hpos]
      have hstep : bisectStep f st = (st.1, 0.5 * (st.1 + st.2)) := by
        unfold bisectStep
        rw [if_pos hpos]
      cases m with
      | zero =>
        show 0.5 * (st.1 + st.2) = midOf ((bisectStep f)^[0] st)
        simp [midOf]
      | succ k =>
        have hnb2 : noTolBreak f (st.1, 0.5 * (st.1 + st.2)) (k + 1) := by
          intro i hik
          have h3 := hnb (i + 1) (by omega)
          rw [Function.iterate_succ_apply, hstep] at h3
          exact h3
        have h2 := ih (st.1, 0.5 * (st.1 + st.2)) (0.5 * (st.1 + st.2)) (by omega) hnb2
        simp only [Nat.add_sub_cancel] at h2
        rw [h2, ← hstep, ← Function.iterate_succ_apply]
    · rw [if_neg hpos]
      have hstep : bisectStep f st = (0.5 * (st.1 + st.2), st.2) := by
        unfold bisectStep
        rw [if_neg hpos]
      cases m with
      | zero =>
        show 0.5 * (st.1 + st.2) = midOf ((bisectStep f)^[0] st)
        simp [midOf]
      | succ k =>
        have hnb2 : noTolBreak f (0.5 * (st.1 + st.2), st.2) (k + 1) := by
          intro i hik
          have h3 := hnb (i + 1) (by omega)
          rw [Function.iterate_succ_apply, hstep] at h3
          exact h3
        have h2 := ih (0.5 * (st.1 + st.2), st.2) (0.5 * (st.1 + st.2)) (by omega) hnb2
        simp only [Nat.add_sub_cancel] at h2
        rw [h2, ← hstep, ← Function.iterate_succ_apply]

/-- If neither break test fires in the first n states, the n-iteration
optimized loop returns the midpoint of the bracket after n halvings (the
source computes (a+b)/2 afresh after the loop). -/
lemma brentLoop_exhaust (f : ℝ → ℝ) :
    ∀ (n : ℕ) (st : ℝ × ℝ × ℝ) (fb : ℝ), noBrentBreak f st n →
      brentLoop f n st.1 st.2.1 st.2.2 fb = cOf ((brentStep f)^[n] st) := by
  intro n
  induction n with
  | zero => intro st fb _; rfl
  | succ m ih =>
    intro st fb hnb
    have h0 : ¬ (|f ((st.1 + st.2.1) / 2)| < 1e-12 ∨ |st.2.1 - st.1| < 1e-12) := by
      have := hnb 0 (Nat.succ_pos m)
      simpa [cOf] using this
    rw [brentLoop_succ, if_neg h0]
    by_cases hc : st.2.2 * f ((st.1 + st.2.1) / 2) < 0
    · rw [if_pos hc]
      have hstep : brentStep f st = (st.1, (st.1 + st.2.1) / 2, st.2.2) := by
        unfold brentStep
        rw [if_pos hc]
      have hnb2 : noBrentBreak f (st.1, (st.1 + st.2.1) / 2, st.2.2) m := by
        intro i him
        have h3 := hnb (i + 1) (by omega)
        rw [Function.iterate_succ_apply, hstep] at h3
        exact h3
      have h2 := ih (st.1, (st.1 + st.2.1) / 2, st.2.2) (f ((st.1 + st.2.1) / 2)) hnb2
      rw [h2, ← hstep, ← Function.iterate_succ_apply]
    · rw [if_neg hc]
      have hstep : brentStep f st = ((st.1 + st.2.1) / 2, st.2.1, f ((st.1 + st.2.1) / 2)) := by
        unfold brentStep
        rw [if_neg hc]
      have hnb2 : noBrentBreak f ((st.1 + st.2.1) / 2, st.2.1, f ((st.1 + st.2.1) / 2)) m := by
        intro i him
        have h3 := hnb (i + 1) (by omega)
        rw [Function.iterate_succ_apply, hstep] at h3
        exact h3
      have h2 := ih ((st.1 + st.2.1) / 2, st.2.1, f ((st.1 + st.2.1) / 2)) fb hnb2
      rw [h2, ← hstep, ← Function.iterate_succ_apply]

/-! ## Concrete parameter sets used in counterexamples and witnesses -/

/-- Raw inputs that are all finite but have gamma = 0. -/
def rawG0 : RawInputs :=
  ⟨.fin 1, .fin 0, .fin 0, .fin 1, .fin 1, .fin 0, .fin 1, .fin 100, .fin 0, .fin 0, .fin 0⟩

/-- r = 0, all other fields the spec's concrete scenario values. -/
def pRzero : Params := ⟨0, 0.03, 2, 1, 20, 20, 1, 100, 10, -50, 0.3⟩

/-- 0 < |r| < 1e-10. -/
def pRtiny : Params := ⟨1e-11, 0.03, 2, 1, 20, 20, 1, 100, 10, -50, 0.3⟩

/-- kappa = (0 + (1-1)*1)/1 = 0: the linear annuity branch. -/
def pKzero : Params := ⟨1, 0, 1, 1, 2, 3, 1, 100, 10, 0, 0.3⟩

/-- kappa = (1 + (1-1)*0)/1 = 1: the exact annuity branch. -/
def pKone : Params := ⟨0, 1, 1, 1, 2, 3, 1, 100, 10, 0, 0.3⟩

/-- The message of the r-guard in RHS. -/
def rErr : Err := .invalidParameter "Interest rate r must be non-zero for y/r transform"

/-- r=1, rho=0, gamma=1, eta=1, T1=2, T2=0, beta=1, w0=1e15, y=-1e15, zeta=0,
tau=0.  Here kappa = 0, alpha = 1, K1 = 2, K2 = 0, RHS = 1e15, so the terminal
equation is F(W) = 3W - 1e15 on W ≥ 0 with root 1e15/3, which no dyadic
midpoint ever hits; both solver loops exhaust their budgets. -/
def pEx : Params := ⟨1, 0, 1, 1, 2, 0, 1, 1e15, -1e15, 0, 0⟩

/-- The bisection objective at pEx (K1 = 2, K2 = 0). -/
def fEx : ℝ → ℝ := fun W => F_of_W W pEx 2 0

/-- The optimized-path objective at pEx. -/
def gEx : ℝ → ℝ := objective pEx 2 0 1e15

/-- The value returned by the fallback bisection at pEx: the midpoint of the
bracket entering the 80th iteration. -/
def wtEx : ℝ := midOf ((bisectStep fEx)^[79] ((0:ℝ), (1e15:ℝ)))

/-- The value returned by the optimized path at pEx: the final midpoint after
its 50 iterations. -/
def optEx : ℝ := cOf ((brentStep gEx)^[50] ((0:ℝ), (2e15:ℝ), (-1e15:ℝ)))

/-- r=1, rho=0, gamma=1, eta=1, T1=1, T2=0, beta=1, w0=100, y=-100, zeta=0,
tau=0.  Here K1 = 1, K2 = 0, RHS = 100, F(W) = 2W - 100 on W ≥ 0, and both
solver paths hit the root 50 exactly within two iterations. -/
def pSimple : Params := ⟨1, 0, 1, 1, 1, 0, 1, 100, -100, 0, 0⟩

/-- The bisection objective at pSimple. -/
def fS : ℝ → ℝ := fun W => F_of_W W pSimple 1 0

/-- The optimized-path objective at pSimple. -/
def gS : ℝ → ℝ := objective pSimple 1 0 100

/-! ### Evaluation lemmas at pEx -/

lemma kappa_pEx : pEx.kappa = 0 := by
  unfold Params.kappa pEx
  norm_num

lemma P_pEx (H : ℝ) : pEx.P H = H := by
  unfold Params.P
  rw [kappa_pEx, if_pos (by unfold EPSILON; rw [abs_zero]; norm_num)]

lemma alpha_pEx : pEx.alpha = 1 := by
  unfold Params.alpha pEx
  norm_num

lemma K1_pEx : K1 pEx = .ok 2 := by
  unfold K1
  rw [if_neg (by norm_num [pEx] : ¬ pEx.beta ≤ 0), P_pEx]
  norm_num [pEx, Real.one_rpow, Real.exp_zero]

lemma K2_pEx : K2 pEx = .ok 0 := by
  unfold K2
  rw [if_neg (by norm_num [pEx] : ¬ pEx.beta ≤ 0), P_pEx]
  norm_num [pEx, Real.one_rpow, Real.exp_zero]

lemma RHSval_pEx : RHSval pEx = 1e15 := by
  unfold RHSval Params.R pEx
  norm_num

lemma RHS_pEx : RHS pEx = .ok 1e15 := by
  unfold RHS
  rw [if_neg (by unfold EPSILON pEx; rw [abs_one]; norm_num), RHSval_pEx]

lemma F_pEx (x : ℝ) (hx : 0 ≤ x) : fEx x = 3 * x - 1e15 := by
  unfold fEx F_of_W
  rw [if_neg (not_lt.mpr hx), alpha_pEx, Real.rpow_one, RHSval_pEx]
  ring

lemma G_pEx (x : ℝ) (hx : 0 ≤ x) : gEx x = 3 * x - 1e15 := by
  unfold gEx objective
  rw [if_neg (not_lt.mpr hx), alpha_pEx, Real.rpow_one]
  ring

/-! ### Evaluation lemmas at pSimple -/

lemma kappa_pSimple : pSimple.kappa = 0 := by
  unfold Params.kappa pSimple
  norm_num

lemma P_pSimple (H : ℝ) : pSimple.P H = H := by
  unfold Params.P
  rw [kappa_pSimple, if_pos (by unfold EPSILON; rw [abs_zero]; norm_num)]

lemma alpha_pSimple : pSimple.alpha = 1 := by
  unfold Params.alpha pSimple
  norm_num

lemma K1_pSimple : K1 pSimple = .ok 1 := by
  unfold K1
  rw [if_neg (by norm_num [pSimple] : ¬ pSimple.beta ≤ 0), P_pSimple]
  norm_num [pSimple, Real.one_rpow, Real.exp_zero]

lemma K2_pSimple : K2 pSimple = .ok 0 := by
  unfold K2
  rw [if_neg (by norm_num [pSimple] : ¬ pSimple.beta ≤ 0), P_pSimple]
  norm_num [pSimple, Real.one_rpow, Real.exp_zero]

lemma RHSval_pSimple : RHSval pSimple = 100 := by
  unfold RHSval Params.R pSimple
  norm_num

lemma RHS_pSimple : RHS pSimple = .ok 100 := by
  unfold RHS
  rw [if_neg (by unfold EPSILON pSimple; rw [abs_one]; norm_num), RHSval_pSimple]

lemma F_pSimple (x : ℝ) (hx : 0 ≤ x) : fS x = 2 * x - 100 := by
  unfold fS F_of_W
  rw [if_neg (not_lt.mpr hx), alpha_pSimple, Real.rpow_one, RHSval_pSimple]
  ring

lemma G_pSimple (x : ℝ) (hx : 0 ≤ x) : gS x = 2 * x - 100 := by
  unfold gS objective
  rw [if_neg (not_lt.mpr hx), alpha_pSimple, Real.rpow_one]
  ring

/-! ### Dyadic bracket invariants at pEx

At pEx the objective is W ↦ 3W - 1e15 on W ≥ 0, with root 1e15/3.  Every
bracket endpoint stays a dyadic multiple of the scale, the root is never a
dyadic rational, so the tolerance is never met and both loops exhaust their
budgets. -/

lemma mid_dyadic (a i : ℕ) :
    (0.5:ℝ) * ((a:ℝ) * 1e15 / 2 ^ i + ((a:ℝ) + 1) * 1e15 / 2 ^ i)
      = (2 * (a:ℝ) + 1) * 1e15 / 2 ^ (i + 1) := by
  have h2 : ((2:ℝ) ^ i) ≠ 0 := by positivity
  rw [pow_succ]
  field_simp
  ring

lemma mid_dyadic2 (u i : ℕ) :
    ((u:ℝ) * 2e15 / 2 ^ i + ((u:ℝ) + 1) * 2e15 / 2 ^ i) / 2
      = (2 * (u:ℝ) + 1) * 1e15 / 2 ^ i := by
  have h2 : ((2:ℝ) ^ i) ≠ 0 := by positivity
  field_simp
  ring

/-- 3 divides no power of 2, so the integer numerator of F at a dyadic
midpoint is non-zero. -/
lemma numerator_ne_zero (a k : ℕ) : (3 * (2 * (a:ℤ) + 1) - 2 ^ k) ≠ 0 := by
  intro h
  have hdvd : (3:ℤ) ∣ 2 ^ k := ⟨2 * (a:ℤ) + 1, by linarith⟩
  have h2 := Int.prime_three.dvd_of_dvd_pow hdvd
  norm_num at h2

lemma f_mid_dyadic (f : ℝ → ℝ) (hf : ∀ x : ℝ, 0 ≤ x → f x = 3 * x - 1e15)
    (c : ℝ) (hc : 0 ≤ c) (k : ℕ) :
    f (c * 1e15 / 2 ^ k) = (3 * c - 2 ^ k) * 1e15 / 2 ^ k := by
  have h2 : ((2:ℝ) ^ k) ≠ 0 := by positivity
  rw [hf _ (by positivity)]
  field_simp
  ring

lemma abs_f_mid_lower (a k : ℕ) :
    1e15 / 2 ^ k ≤ |(3 * (2 * (a:ℝ) + 1) - 2 ^ k) * 1e15 / 2 ^ k| := by
  have hNne := numerator_ne_zero a k
  have hcast : ((3 * (2 * (a:ℤ) + 1) - 2 ^ k : ℤ) : ℝ) = 3 * (2 * (a:ℝ) + 1) - 2 ^ k := by
    push_cast
    ring
  have h1 : (1:ℝ) ≤ |3 * (2 * (a:ℝ) + 1) - 2 ^ k| := by
    rw [← hcast, ← Int.cast_abs]
    have h2 : 1 ≤ |3 * (2 * (a:ℤ) + 1) - 2 ^ k| := by
      rcases hNne.lt_or_lt with h | h
      · rw [abs_of_neg h]; omega
      · rw [abs_of_pos h]; omega
    exact_mod_cast h2
  rw [abs_div, abs_mul, abs_of_pos (show (0:ℝ) < 2 ^ k by positivity),
    abs_of_pos (show (0:ℝ) < 1e15 by norm_num)]
  have h3 : (1e15:ℝ) ≤ |3 * (2 * (a:ℝ) + 1) - 2 ^ k| * 1e15 :=
    le_mul_of_one_le_left (by norm_num) h1
  exact (div_le_div_right (by positivity)).mpr h3

lemma bisectState_pEx (f : ℝ → ℝ) (hf : ∀ x : ℝ, 0 ≤ x → f x = 3 * x - 1e15) :
    ∀ i : ℕ, ∃ a : ℕ,
      (bisectStep f)^[i] ((0:ℝ), (1e15:ℝ))
          = ((a:ℝ) * 1e15 / 2 ^ i, ((a:ℝ) + 1) * 1e15 / 2 ^ i) ∧
        3 * a < 2 ^ i ∧ 2 ^ i < 3 * (a + 1) := by
  intro i
  induction i with
  | zero =>
    refine ⟨0, ?_, by norm_num, by norm_num⟩
    norm_num
  | succ i ih =>
    obtain ⟨a, hst, h1, h2⟩ := ih
    have hNne := numerator_ne_zero a (i + 1)
    have hNcast : ((3 * (2 * (a:ℤ) + 1) - 2 ^ (i + 1) : ℤ) : ℝ)
        = 3 * (2 * (a:ℝ) + 1) - 2 ^ (i + 1) := by
      push_cast
      ring
    have hXne : (3 * (2 * (a:ℝ) + 1) - 2 ^ (i + 1)) ≠ 0 := by
      rw [← hNcast]
      exact_mod_cast hNne
    by_cases hsign : (0:ℝ) < 3 * (2 * (a:ℝ) + 1) - 2 ^ (i + 1)
    · refine ⟨2 * a, ?_, ?_, ?_⟩
      · rw [Function.iterate_succ_apply', hst, bisectStep_mk, mid_dyadic,
          f_mid_dyadic f hf _ (by positivity) (i + 1),
          if_pos (div_pos (mul_pos hsign (by norm_num)) (by positivity))]
        simp only [Prod.mk.injEq]
        constructor
        · have h2i : ((2:ℝ) ^ i) ≠ 0 := by positivity
          push_cast
          rw [pow_succ]
          field_simp
          ring
        · push_cast
          ring_nf
      · have hps : (2:ℕ) ^ (i + 1) = 2 * 2 ^ i := by rw [pow_succ]; ring
        rw [hps]
        omega
      · have hz : (0:ℤ) < 3 * (2 * (a:ℤ) + 1) - 2 ^ (i + 1) := by
          have h4 : (0:ℝ) < ((3 * (2 * (a:ℤ) + 1) - 2 ^ (i + 1) : ℤ) : ℝ) := by
            rw [hNcast]; exact hsign
          exact_mod_cast h4
        zify
        linarith
    · have hXneg : (3 * (2 * (a:ℝ) + 1) - 2 ^ (i + 1)) < 0 :=
        lt_of_le_of_ne (not_lt.mp hsign) hXne
      refine ⟨2 * a + 1, ?_, ?_, ?_⟩
      · rw [Function.iterate_succ_apply', hst, bisectStep_mk, mid_dyadic,
          f_mid_dyadic f hf _ (by positivity) (i + 1),
          if_neg (not_lt.mpr (le_of_lt (div_neg_of_neg_of_pos
            (mul_neg_of_neg_of_pos hXneg (by norm_num)) (by positivity))))]
        simp only [Prod.mk.injEq]
        constructor
        · push_cast
          ring_nf
        · have h2i : ((2:ℝ) ^ i) ≠ 0 := by positivity
          push_cast
          rw [pow_succ]
          field_simp
          ring
      · have hz : (0:ℤ) > 3 * (2 * (a:ℤ) + 1) - 2 ^ (i + 1) := by
          have h4 : ((3 * (2 * (a:ℤ) + 1) - 2 ^ (i + 1) : ℤ) : ℝ) < 0 := by
            rw [hNcast]; exact hXneg
          exact_mod_cast h4
        zify
        linarith
      · have hps : (2:ℕ) ^ (i + 1) = 2 * 2 ^ i := by rw [pow_succ]; ring
        rw [hps]
        omega

lemma bisect_noTolBreak_pEx (f : ℝ → ℝ) (hf : ∀ x : ℝ, 0 ≤ x → f x = 3 * x - 1e15) :
    noTolBreak f ((0:ℝ), (1e15:ℝ)) 80 := by
  unfold noTolBreak
  intro i hi
  obtain ⟨a, hst, h1, h2⟩ := bisectState_pEx f hf i
  rw [hst, midOf_mk, mid_dyadic, f_mid_dyadic f hf _ (by positivity) (i + 1)]
  have hlow := abs_f_mid_lower a (i + 1)
  have hb : (1e-10:ℝ) < 1e15 / 2 ^ (i + 1) := by
    rw [lt_div_iff (by positivity)]
    calc (1e-10:ℝ) * 2 ^ (i + 1) ≤ 1e-10 * 2 ^ 80 := by
          exact mul_le_mul_of_nonneg_left
            (pow_le_pow_right (by norm_num) (by omega)) (by norm_num)
      _ < 1e15 := by norm_num
  intro hcon
  unfold EPSILON at hcon
  linarith

lemma brentState_pEx (f : ℝ → ℝ) (hf : ∀ x : ℝ, 0 ≤ x → f x = 3 * x - 1e15) :
    ∀ i : ℕ, ∃ (u : ℕ) (fa : ℝ),
      (brentStep f)^[i] ((0:ℝ), (2e15:ℝ), (-1e15:ℝ))
          = ((u:ℝ) * 2e15 / 2 ^ i, ((u:ℝ) + 1) * 2e15 / 2 ^ i, fa) ∧
        6 * u < 2 ^ i ∧ 2 ^ i < 6 * (u + 1) ∧ fa < 0 := by
  intro i
  induction i with
  | zero =>
    refine ⟨0, -1e15, ?_, by norm_num, by norm_num, by norm_num⟩
    norm_num
  | succ i ih =>
    obtain ⟨u, fa, hst, h1, h2, hfa⟩ := ih
    have hNne := numerator_ne_zero u i
    have hNcast : ((3 * (2 * (u:ℤ) + 1) - 2 ^ i : ℤ) : ℝ)
        = 3 * (2 * (u:ℝ) + 1) - 2 ^ i := by
      push_cast
      ring
    have hXne : (3 * (2 * (u:ℝ) + 1) - 2 ^ i) ≠ 0 := by
      rw [← hNcast]
      exact_mod_cast hNne
    by_cases hsign : (0:ℝ) < 3 * (2 * (u:ℝ) + 1) - 2 ^ i
    · have hfc : (0:ℝ) < (3 * (2 * (u:ℝ) + 1) - 2 ^ i) * 1e15 / 2 ^ i :=
        div_pos (mul_pos hsign (by norm_num)) (by positivity)
      refine ⟨2 * u, fa, ?_, ?_, ?_, hfa⟩
      · rw [Function.iterate_succ_apply', hst, brentStep_mk, mid_dyadic2,
          f_mid_dyadic f hf _ (by positivity) i,
          if_pos (mul_neg_of_neg_of_pos hfa hfc)]
        simp only [Prod.mk.injEq]
        refine ⟨?_, ?_, trivial⟩
        · have h2i : ((2:ℝ) ^ i) ≠ 0 := by positivity
          push_cast
          rw [pow_succ]
          field_simp
          ring
        · have h2i : ((2:ℝ) ^ i) ≠ 0 := by positivity
          push_cast
          rw [pow_succ]
          field_simp
          ring
      · have hps : (2:ℕ) ^ (i + 1) = 2 * 2 ^ i := by rw [pow_succ]; ring
        rw [hps]
        omega
      · have hz : (0:ℤ) < 3 * (2 * (u:ℤ) + 1) - 2 ^ i := by
          have h4 : (0:ℝ) < ((3 * (2 * (u:ℤ) + 1) - 2 ^ i : ℤ) : ℝ) := by
            rw [hNcast]; exact hsign
          exact_mod_cast h4
        have hps : (2:ℕ) ^ (i + 1) = 2 * 2 ^ i := by rw [pow_succ]; ring
        have hzn : (2:ℕ) ^ i < 3 * (2 * u + 1) := by
          zify
          linarith
        rw [hps]
        omega
    · have hXneg : (3 * (2 * (u:ℝ) + 1) - 2 ^ i) < 0 :=
        lt_of_le_of_ne (not_lt.mp hsign) hXne
      have hfc : ((3 * (2 * (u:ℝ) + 1) - 2 ^ i) * 1e15 / 2 ^ i) < 0 :=
        div_neg_of_neg_of_pos (mul_neg_of_neg_of_pos hXneg (by norm_num)) (by positivity)
      refine ⟨2 * u + 1, (3 * (2 * (u:ℝ) + 1) - 2 ^ i) * 1e15 / 2 ^ i, ?_, ?_, ?_, hfc⟩
      · rw [Function.iterate_succ_apply', hst, brentStep_mk, mid_dyadic2,
          f_mid_dyadic f hf _ (by positivity) i,
          if_neg (not_lt.mpr (le_of_lt (mul_pos_of_neg_of_neg hfa hfc)))]
        simp only [Prod.mk.injEq]
        refine ⟨?_, ?_, trivial⟩
        · have h2i : ((2:ℝ) ^ i) ≠ 0 := by positivity
          push_cast
          rw [pow_succ]
          field_simp
          ring
        · have h2i : ((2:ℝ) ^ i) ≠ 0 := by positivity
          push_cast
          rw [pow_succ]
          field_simp
          ring
      · have hz : (0:ℤ) > 3 * (2 * (u:ℤ) + 1) - 2 ^ i := by
          have h4 : ((3 * (2 * (u:ℤ) + 1) - 2 ^ i : ℤ) : ℝ) < 0 := by
            rw [hNcast]; exact hXneg
          exact_mod_cast h4
        have hps : (2:ℕ) ^ (i + 1) = 2 * 2 ^ i := by rw [pow_succ]; ring
        have hzn : 3 * (2 * u + 1) < (2:ℕ) ^ i := by
          zify
          linarith
        rw [hps]
        omega
      · have hps : (2:ℕ) ^ (i + 1) = 2 * 2 ^ i := by rw [pow_succ]; ring
        rw [hps]
        omega

lemma brent_noBreak_pEx (f : ℝ → ℝ) (hf : ∀ x : ℝ, 0 ≤ x → f x = 3 * x - 1e15) :
    noBrentBreak f ((0:ℝ), (2e15:ℝ), (-1e15:ℝ)) 50 := by
  unfold noBrentBreak
  intro i hi
  obtain ⟨u, fa, hst, h1, h2, hfa⟩ := brentState_pEx f hf i
  rw [hst]
  push_neg
  have hb : (1e-12:ℝ) < 1e15 / 2 ^ i := by
    rw [lt_div_iff (by positivity)]
    calc (1e-12:ℝ) * 2 ^ i ≤ 1e-12 * 2 ^ 49 := by
          exact mul_le_mul_of_nonneg_left
            (pow_le_pow_right (by norm_num) (by omega)) (by norm_num)
      _ < 1e15 := by norm_num
  constructor
  · rw [cOf_mk, mid_dyadic2, f_mid_dyadic f hf _ (by positivity) i]
    have hlow := abs_f_mid_lower u i
    linarith
  · dsimp only
    have hwidth : ((u:ℝ) + 1) * 2e15 / 2 ^ i - (u:ℝ) * 2e15 / 2 ^ i = 2e15 / 2 ^ i := by
      have h2i : ((2:ℝ) ^ i) ≠ 0 := by positivity
      field_simp
      ring
    rw [hwidth, abs_of_pos (by positivity)]
    have : (1e15:ℝ) / 2 ^ i ≤ 2e15 / 2 ^ i := by
      gcongr ?_ / _
      norm_num
    linarith

/-! ### Full solver runs at pEx and pSimple -/

lemma expand_pEx :
    expandBracket fEx (fEx 0) MAX_BRACKET_TRIES (1e15:ℝ) = .ok 1e15 := by
  have hc : fEx 0 < 0 ∧ fEx (1e15:ℝ) > 0 := by
    constructor
    · rw [F_pEx 0 le_rfl]; norm_num
    · rw [F_pEx 1e15 (by norm_num)]; norm_num
  rw [show MAX_BRACKET_TRIES = 39 + 1 from rfl, expandBracket_succ, if_pos hc]

lemma loop_pEx : bisectLoop fEx MAX_BISECTION_ITERATIONS 0 1e15 0 = wtEx :=
  bisectLoop_exhaust fEx 80 ((0:ℝ), (1e15:ℝ)) 0 (by norm_num)
    (bisect_noTolBreak_pEx fEx F_pEx)

lemma bis_pEx : solveWTBisection pEx = .ok ⟨wtEx, 2, 0⟩ := by
  unfold solveWTBisection
  simp only [K1_pEx, K2_pEx, RHS_pEx]
  rw [show (fun W => F_of_W W pEx 2 0) = fEx from rfl,
    show F_of_W 0 pEx 2 0 = fEx 0 from rfl,
    show max EPSILON (1e15:ℝ) = (1e15:ℝ) from max_eq_right (by unfold EPSILON; norm_num)]
  simp only [expand_pEx]
  rw [loop_pEx]

lemma brentSolve_pEx : brentSolve pEx 2 0 1e15 = optEx := by
  simp only [brentSolve]
  rw [show objective pEx 2 0 (1e15:ℝ) = gEx from rfl]
  have h1 : max ((1e15:ℝ) * 2) 10 = (2e15:ℝ) := by
    rw [max_eq_left (by norm_num)]
    norm_num
  have hg0 : gEx 0 = -1e15 := by rw [G_pEx 0 le_rfl]; norm_num
  have hgb : gEx (2e15:ℝ) = 5e15 := by rw [G_pEx _ (by norm_num)]; norm_num
  rw [h1, hg0, hgb, if_neg (by norm_num : ¬ ((-1e15:ℝ) * 5e15 ≥ 0))]
  dsimp only
  exact brentLoop_exhaust gEx 50 ((0:ℝ), (2e15:ℝ), (-1e15:ℝ)) 5e15
    (brent_noBreak_pEx gEx G_pEx)

lemma opt_pEx : solveWTOptimized pEx true = .ok ⟨optEx, 2, 0⟩ := by
  unfold solveWTOptimized
  simp only [K1_pEx, K2_pEx, RHS_pEx]
  show Except.ok (⟨brentSolve pEx 2 0 1e15, 2, 0⟩ : SolverResult) = .ok ⟨optEx, 2, 0⟩
  rw [brentSolve_pEx]

/-- The two exhausted midpoints have distinct dyadic denominators (2^50 with an
odd numerator versus 2^80 with an odd numerator), so they differ. -/
lemma optEx_ne_wtEx : optEx ≠ wtEx := by
  obtain ⟨u, fa, hstu, hu1, hu2, hfau⟩ := brentState_pEx gEx G_pEx 50
  obtain ⟨a, hsta, ha1, ha2⟩ := bisectState_pEx fEx F_pEx 79
  have hopt : optEx = (2 * (u:ℝ) + 1) * 1e15 / 2 ^ 50 := by
    unfold optEx
    rw [hstu, cOf_mk, mid_dyadic2]
  have hwt : wtEx = (2 * (a:ℝ) + 1) * 1e15 / 2 ^ 80 := by
    unfold wtEx
    rw [hsta, midOf_mk, mid_dyadic]
  rw [hopt, hwt]
  intro heq
  rw [div_eq_div_iff (by positivity) (by positivity)] at heq
  have key : (2 * (u:ℝ) + 1) * 2 ^ 30 = 2 * (a:ℝ) + 1 := by
    have h2 : ((2 * (u:ℝ) + 1) * 2 ^ 30) * (1e15 * 2 ^ 50)
        = (2 * (a:ℝ) + 1) * (1e15 * 2 ^ 50) := by
      calc ((2 * (u:ℝ) + 1) * 2 ^ 30) * (1e15 * 2 ^ 50)
          = (2 * (u:ℝ) + 1) * 1e15 * 2 ^ 80 := by
            rw [show (80:ℕ) = 50 + 30 from rfl, pow_add]
            ring
        _ = (2 * (a:ℝ) + 1) * 1e15 * 2 ^ 50 := heq
        _ = (2 * (a:ℝ) + 1) * (1e15 * 2 ^ 50) := by ring
    exact mul_right_cancel₀ (by positivity) h2
  have keyn : (2 * u + 1) * 2 ^ 30 = 2 * a + 1 := by exact_mod_cast key
  have h30 : (2:ℕ) ^ 30 = 1073741824 := by norm_num
  rw [h30] at keyn
  omega

lemma expand_pSimple :
    expandBracket fS (fS 0) MAX_BRACKET_TRIES (100:ℝ) = .ok 100 := by
  have hc : fS 0 < 0 ∧ fS (100:ℝ) > 0 := by
    constructor
    · rw [F_pSimple 0 le_rfl]; norm_num
    · rw [F_pSimple 100 (by norm_num)]; norm_num
  rw [show MAX_BRACKET_TRIES = 39 + 1 from rfl, expandBracket_succ, if_pos hc]

lemma loop_pSimple : bisectLoop fS MAX_BISECTION_ITERATIONS 0 100 0 = 50 := by
  rw [show MAX_BISECTION_ITERATIONS = 79 + 1 from rfl, bisectLoop_succ,
    show (0.5:ℝ) * (0 + 100) = 50 by norm_num, F_pSimple 50 (by norm_num)]
  rw [if_pos (by
    unfold EPSILON
    rw [show (2 * (50:ℝ) - 100) = 0 by norm_num, abs_zero]
    norm_num)]

lemma bis_pSimple : solveWTBisection pSimple = .ok ⟨50, 1, 0⟩ := by
  unfold solveWTBisection
  simp only [K1_pSimple, K2_pSimple, RHS_pSimple]
  rw [show (fun W => F_of_W W pSimple 1 0) = fS from rfl,
    show F_of_W 0 pSimple 1 0 = fS 0 from rfl,
    show max EPSILON (100:ℝ) = (100:ℝ) from max_eq_right (by unfold EPSILON; norm_num)]
  simp only [expand_pSimple]
  rw [loop_pSimple]

lemma brentSolve_pSimple : brentSolve pSimple 1 0 100 = 50 := by
  simp only [brentSolve]
  rw [show objective pSimple 1 0 (100:ℝ) = gS from rfl]
  have h1 : max ((100:ℝ) * 2) 10 = (200:ℝ) := by
    rw [max_eq_left (by norm_num)]
    norm_num
  have hg0 : gS 0 = -100 := by rw [G_pSimple 0 le_rfl]; norm_num
  have hgb : gS (200:ℝ) = 300 := by rw [G_pSimple _ (by norm_num)]; norm_num
  rw [h1, hg0, hgb, if_neg (by norm_num : ¬ ((-100:ℝ) * 300 ≥ 0))]
  dsimp only
  rw [show (50:ℕ) = 49 + 1 from rfl, brentLoop_succ,
    show ((0:ℝ) + 200) / 2 = 100 by norm_num, G_pSimple 100 (by norm_num)]
  rw [if_neg (by
      push_neg
      constructor
      · rw [show (2 * (100:ℝ) - 100) = 100 by norm_num,
          abs_of_pos (by norm_num : (0:ℝ) < 100)]
        norm_num
      · rw [show ((200:ℝ) - 0) = 200 by norm_num,
          abs_of_pos (by norm_num : (0:ℝ) < 200)]
        norm_num),
    if_pos (by norm_num : (-100:ℝ) * (2 * 100 - 100) < 0)]
  rw [show (49:ℕ) = 48 + 1 from rfl, brentLoop_succ,
    show ((0:ℝ) + 100) / 2 = 50 by norm_num, G_pSimple 50 (by norm_num)]
  rw [if_pos (by
    left
    rw [show (2 * (50:ℝ) - 100) = 0 by norm_num, abs_zero]
    norm_num)]

lemma opt_pSimple : solveWTOptimized pSimple true = .ok ⟨50, 1, 0⟩ := by
  unfold solveWTOptimized
  simp only [K1_pSimple, K2_pSimple, RHS_pSimple]
  show Except.ok (⟨brentSolve pSimple 1 0 100, 1, 0⟩ : SolverResult) = .ok ⟨50, 1, 0⟩
  rw [brentSolve_pSimple]

/-! ### A run whose tolerance failure is robust to double precision: pEx2

Same structure as pEx but with T1 = 6, so K1 = 6, K2 = 0, RHS = 1e15 and the
terminal equation is F(W) = 7W - 1e15 on W ≥ 0, root 1e15/7.  As at pEx, no
dyadic midpoint ever meets the 1e-10 tolerance, so the loop exhausts its 80
iterations.  Unlike at pEx (where the double-precision product 2*mid is exact
and mid + 2*mid cancels to exactly 1e15 at iteration 54), here 6*mid itself
rounds, the computed F(mid) near the root is quantized in steps of 1/8 and
never cancels to 0, so the IEEE-double execution of the source also runs all
80 iterations and returns mid = 142857142857142.88 with computed and exact
F(mid) = 1/8 ≥ 1e-10: the exhaustion is genuine program behavior. -/

def pEx2 : Params := ⟨1, 0, 1, 1, 6, 0, 1, 1e15, -1e15, 0, 0⟩

/-- The bisection objective at pEx2 (K1 = 6, K2 = 0). -/
def fEx2 : ℝ → ℝ := fun W => F_of_W W pEx2 6 0

/-- The value returned by the fallback bisection at pEx2. -/
def wtEx2 : ℝ := midOf ((bisectStep fEx2)^[79] ((0:ℝ), (1e15:ℝ)))

lemma kappa_pEx2 : pEx2.kappa = 0 := by
  unfold Params.kappa pEx2
  norm_num

lemma P_pEx2 (H : ℝ) : pEx2.P H = H := by
  unfold Params.P
  rw [kappa_pEx2, if_pos (by unfold EPSILON; rw [abs_zero]; norm_num)]

lemma alpha_pEx2 : pEx2.alpha = 1 := by
  unfold Params.alpha pEx2
  norm_num

lemma K1_pEx2 : K1 pEx2 = .ok 6 := by
  unfold K1
  rw [if_neg (by norm_num [pEx2] : ¬ pEx2.beta ≤ 0), P_pEx2]
  norm_num [pEx2, Real.one_rpow, Real.exp_zero]

lemma K2_pEx2 : K2 pEx2 = .ok 0 := by
  unfold K2
  rw [if_neg (by norm_num [pEx2] : ¬ pEx2.beta ≤ 0), P_pEx2]
  norm_num [pEx2, Real.one_rpow, Real.exp_zero]

lemma RHSval_pEx2 : RHSval pEx2 = 1e15 := by
  unfold RHSval Params.R pEx2
  norm_num

lemma RHS_pEx2 : RHS pEx2 = .ok 1e15 := by
  unfold RHS
  rw [if_neg (by unfold EPSILON pEx2; rw [abs_one]; norm_num), RHSval_pEx2]

lemma F_pEx2 (x : ℝ) (hx : 0 ≤ x) : fEx2 x = 7 * x - 1e15 := by
  unfold fEx2 F_of_W
  rw [if_neg (not_lt.mpr hx), alpha_pEx2, Real.rpow_one, RHSval_pEx2]
  ring

/-- 7 divides no power of 2. -/
lemma numerator7_ne_zero (a k : ℕ) : (7 * (2 * (a:ℤ) + 1) - 2 ^ k) ≠ 0 := by
  intro h
  have hdvd : (7:ℤ) ∣ 2 ^ k := ⟨2 * (a:ℤ) + 1, by linarith⟩
  have h7 : Prime (7:ℤ) := by
    have h2 := Nat.prime_iff_prime_int.mp (by norm_num : Nat.Prime 7)
    exact_mod_cast h2
  have h3 := h7.dvd_of_dvd_pow hdvd
  norm_num at h3

lemma f_mid_dyadic7 (f : ℝ → ℝ) (hf : ∀ x : ℝ, 0 ≤ x → f x = 7 * x - 1e15)
    (c : ℝ) (hc : 0 ≤ c) (k : ℕ) :
    f (c * 1e15 / 2 ^ k) = (7 * c - 2 ^ k) * 1e15 / 2 ^ k := by
  have h2 : ((2:ℝ) ^ k) ≠ 0 := by positivity
  rw [hf _ (by positivity)]
  field_simp
  ring

lemma abs_f_mid_lower7 (a k : ℕ) :
    1e15 / 2 ^ k ≤ |(7 * (2 * (a:ℝ) + 1) - 2 ^ k) * 1e15 / 2 ^ k| := by
  have hNne := numerator7_ne_zero a k
  have hcast : ((7 * (2 * (a:ℤ) + 1) - 2 ^ k : ℤ) : ℝ) = 7 * (2 * (a:ℝ) + 1) - 2 ^ k := by
    push_cast
    ring
  have h1 : (1:ℝ) ≤ |7 * (2 * (a:ℝ) + 1) - 2 ^ k| := by
    rw [← hcast, ← Int.cast_abs]
    have h2 : 1 ≤ |7 * (2 * (a:ℤ) + 1) - 2 ^ k| := by
      rcases hNne.lt_or_lt with h | h
      · rw [abs_of_neg h]; omega
      · rw [abs_of_pos h]; omega
    exact_mod_cast h2
  rw [abs_div, abs_mul, abs_of_pos (show (0:ℝ) < 2 ^ k by positivity),
    abs_of_pos (show (0:ℝ) < 1e15 by norm_num)]
  have h3 : (1e15:ℝ) ≤ |7 * (2 * (a:ℝ) + 1) - 2 ^ k| * 1e15 :=
    le_mul_of_one_le_left (by norm_num) h1
  exact (div_le_div_right (by positivity)).mpr h3

lemma bisectState_pEx2 (f : ℝ → ℝ) (hf : ∀ x : ℝ, 0 ≤ x → f x = 7 * x - 1e15) :
    ∀ i : ℕ, ∃ a : ℕ,
      (bisectStep f)^[i] ((0:ℝ), (1e15:ℝ))
          = ((a:ℝ) * 1e15 / 2 ^ i, ((a:ℝ) + 1) * 1e15 / 2 ^ i) ∧
        7 * a < 2 ^ i ∧ 2 ^ i < 7 * (a + 1) := by
  intro i
  induction i with
  | zero =>
    refine ⟨0, ?_, by norm_num, by norm_num⟩
    norm_num
  | succ i ih =>
    obtain ⟨a, hst, h1, h2⟩ := ih
    have hNne := numerator7_ne_zero a (i + 1)
    have hNcast : ((7 * (2 * (a:ℤ) + 1) - 2 ^ (i + 1) : ℤ) : ℝ)
        = 7 * (2 * (a:ℝ) + 1) - 2 ^ (i + 1) := by
      push_cast
      ring
    have hXne : (7 * (2 * (a:ℝ) + 1) - 2 ^ (i + 1)) ≠ 0 := by
      rw [← hNcast]
      exact_mod_cast hNne
    by_cases hsign : (0:ℝ) < 7 * (2 * (a:ℝ) + 1) - 2 ^ (i + 1)
    · refine ⟨2 * a, ?_, ?_, ?_⟩
      · rw [Function.iterate_succ_apply', hst, bisectStep_mk, mid_dyadic,
          f_mid_dyadic7 f hf _ (by positivity) (i + 1),
          if_pos (div_pos (mul_pos hsign (by norm_num)) (by positivity))]
        simp only [Prod.mk.injEq]
        constructor
        · have h2i : ((2:ℝ) ^ i) ≠ 0 := by positivity
          push_cast
          rw [pow_succ]
          field_simp
          ring
        · push_cast
          ring_nf
      · have hps : (2:ℕ) ^ (i + 1) = 2 * 2 ^ i := by rw [pow_succ]; ring
        rw [hps]
        omega
      · have hz : (0:ℤ) < 7 * (2 * (a:ℤ) + 1) - 2 ^ (i + 1) := by
          have h4 : (0:ℝ) < ((7 * (2 * (a:ℤ) + 1) - 2 ^ (i + 1) : ℤ) : ℝ) := by
            rw [hNcast]; exact hsign
          exact_mod_cast h4
        zify
        linarith
    · have hXneg : (7 * (2 * (a:ℝ) + 1) - 2 ^ (i + 1)) < 0 :=
        lt_of_le_of_ne (not_lt.mp hsign) hXne
      refine ⟨2 * a + 1, ?_, ?_, ?_⟩
      · rw [Function.iterate_succ_apply', hst, bisectStep_mk, mid_dyadic,
          f_mid_dyadic7 f hf _ (by positivity) (i + 1),
          if_neg (not_lt.mpr (le_of_lt (div_neg_of_neg_of_pos
            (mul_neg_of_neg_of_pos hXneg (by norm_num)) (by positivity))))]
        simp only [Prod.mk.injEq]
        constructor
        · push_cast
          ring_nf
        · have h2i : ((2:ℝ) ^ i) ≠ 0 := by positivity
          push_cast
          rw [pow_succ]
          field_simp
          ring
      · have hz : (0:ℤ) > 7 * (2 * (a:ℤ) + 1) - 2 ^ (i + 1) := by
          have h4 : ((7 * (2 * (a:ℤ) + 1) - 2 ^ (i + 1) : ℤ) : ℝ) < 0 := by
            rw [hNcast]; exact hXneg
          exact_mod_cast h4
        zify
        linarith
      · have hps : (2:ℕ) ^ (i + 1) = 2 * 2 ^ i := by rw [pow_succ]; ring
        rw [hps]
        omega

lemma bisect_noTolBreak_pEx2 (f : ℝ → ℝ) (hf : ∀ x : ℝ, 0 ≤ x → f x = 7 * x - 1e15) :
    noTolBreak f ((0:ℝ), (1e15:ℝ)) 80 := by
  unfold noTolBreak
  intro i hi
  obtain ⟨a, hst, h1, h2⟩ := bisectState_pEx2 f hf i
  rw [hst, midOf_mk, mid_dyadic, f_mid_dyadic7 f hf _ (by positivity) (i + 1)]
  have hlow := abs_f_mid_lower7 a (i + 1)
  have hb : (1e-10:ℝ) < 1e15 / 2 ^ (i + 1) := by
    rw [lt_div_iff (by positivity)]
    calc (1e-10:ℝ) * 2 ^ (i + 1) ≤ 1e-10 * 2 ^ 80 := by
          exact mul_le_mul_of_nonneg_left
            (pow_le_pow_right (by norm_num) (by omega)) (by norm_num)
      _ < 1e15 := by norm_num
  intro hcon
  unfold EPSILON at hcon
  linarith

lemma expand_pEx2 :
    expandBracket fEx2 (fEx2 0) MAX_BRACKET_TRIES (1e15:ℝ) = .ok 1e15 := by
  have hc : fEx2 0 < 0 ∧ fEx2 (1e15:ℝ) > 0 := by
    constructor
    · rw [F_pEx2 0 le_rfl]; norm_num
    · rw [F_pEx2 1e15 (by norm_num)]; norm_num
  rw [show MAX_BRACKET_TRIES = 39 + 1 from rfl, expandBracket_succ, if_pos hc]

lemma loop_pEx2 : bisectLoop fEx2 MAX_BISECTION_ITERATIONS 0 1e15 0 = wtEx2 :=
  bisectLoop_exhaust fEx2 80 ((0:ℝ), (1e15:ℝ)) 0 (by norm_num)
    (bisect_noTolBreak_pEx2 fEx2 F_pEx2)

lemma bis_pEx2 : solveWTBisection pEx2 = .ok ⟨wtEx2, 6, 0⟩ := by
  unfold solveWTBisection
  simp only [K1_pEx2, K2_pEx2, RHS_pEx2]
  rw [show (fun W => F_of_W W pEx2 6 0) = fEx2 from rfl,
    show F_of_W 0 pEx2 6 0 = fEx2 0 from rfl,
    show max EPSILON (1e15:ℝ) = (1e15:ℝ) from max_eq_right (by unfold EPSILON; norm_num)]
  simp only [expand_pEx2]
  rw [loop_pEx2]

/-! ## C1: what the bisection solver guarantees on bracket success -/

/-- C1 (amended): whenever solveWTBisection succeeds, the returned WT is
nonnegative.  The tolerance bound |F(WT)| < EPSILON is not guaranteed: the
loop can run its whole 80-iteration budget without any midpoint meeting the
tolerance and then returns the final midpoint, whose residual exceeds EPSILON
(counterexample below, at a parameter set where the double-precision
execution of the source exhausts the budget as well). -/
theorem solveWTBisection_WT_nonneg (p : Params) (res : SolverResult)
    (h : solveWTBisection p = .ok res) : 0 ≤ res.WT := by
  unfold solveWTBisection at h
  split at h
  · exact absurd h (by simp)
  split at h
  · exact absurd h (by simp)
  split at h
  · exact absurd h (by simp)
  split at h
  · exact absurd h (by simp)
  rename_i K1v heq1 K2v heq2 rhsValue heq3 hi hE
  injection h with h2
  rw [← h2]
  have hhi : 0 < hi :=
    expandBracket_pos _ _ _ _ _ hE
      (lt_of_lt_of_le (by unfold EPSILON; norm_num) (le_max_left _ _))
  exact bisectLoop_nonneg _ _ _ _ _ le_rfl hhi.le le_rfl

/-- Witness for C1 (amended) at pSimple, where the solver returns WT = 50. -/
theorem solveWTBisection_WT_nonneg_witness :
    solveWTBisection pSimple = .ok ⟨50, 1, 0⟩ ∧ 0 ≤ (SolverResult.mk 50 1 0).WT :=
  ⟨bis_pSimple, solveWTBisection_WT_nonneg pSimple ⟨50, 1, 0⟩ bis_pSimple⟩

/-- C1 (counterexample): at pEx2 (r = 1 > 0, beta = 1 > 0, gamma = 1 ≠ 0) the
bracket search succeeds immediately, yet all 80 bisection iterations miss the
1e-10 tolerance (F(W) = 7W - 1e15, and the root 1e15/7 is never a dyadic
midpoint of the 1e15-wide bracket), so the solver returns a WT with
|F(WT)| ≥ 1e15/2^80 > 1e-10.  The IEEE-double execution of the source at
these parameters likewise exhausts all 80 iterations (computed F(mid) is
quantized in 1/8 steps near the root, never cancelling to 0) and returns
mid = 142857142857142.88 whose computed and exact residual is 1/8. -/
theorem bisection_tolerance_cex :
    solveWTBisection pEx2 = .ok ⟨wtEx2, 6, 0⟩ ∧ 0 ≤ wtEx2 ∧
    ¬ |F_of_W wtEx2 pEx2 6 0| < EPSILON := by
  refine ⟨bis_pEx2, ?_, ?_⟩
  · obtain ⟨a, hsta, h1, h2⟩ := bisectState_pEx2 fEx2 F_pEx2 79
    unfold wtEx2
    rw [hsta, midOf_mk, mid_dyadic]
    positivity
  · exact bisect_noTolBreak_pEx2 fEx2 F_pEx2 79 (by norm_num)

/-! ## C3: relation between the two solver paths -/

/-- C3 (amended): with the matrix library unavailable the optimized entry
point falls through to solveWTBisection exactly, and whenever both paths
succeed they report the same K1 and K2 (each recomputes them from p).  The
WT values of the two paths are not equivalent in general — the optimized path
uses bracket [0, max(2*RHS, 10)], tolerance 1e-12 and budget 50 instead of
[0, max(EPSILON, RHS)] (doubled as needed), 1e-10 and 80 — see the
counterexample. -/
theorem solver_paths_relation (p : Params) :
    solveWT p false = solveWTBisection p ∧
    (∀ r1 r2 : SolverResult, solveWTOptimized p true = .ok r1 →
      solveWTBisection p = .ok r2 → r1.K1v = r2.K1v ∧ r1.K2v = r2.K2v) := by
  constructor
  · show solveWTOptimized p false = solveWTBisection p
    unfold solveWTOptimized
    cases hK1 : K1 p with
    | error e => unfold solveWTBisection; rw [hK1]
    | ok K1v =>
      cases hK2 : K2 p with
      | error e => unfold solveWTBisection; rw [hK1, hK2]
      | ok K2v =>
        cases hR : RHS p with
        | error e => unfold solveWTBisection; rw [hK1, hK2, hR]
        | ok rhsValue => rfl
  · intro r1 r2 h1 h2
    unfold solveWTOptimized at h1
    split at h1
    · exact absurd h1 (by simp)
    rename_i K1v heq1
    split at h1
    · exact absurd h1 (by simp)
    rename_i K2v heq2
    split at h1
    · exact absurd h1 (by simp)
    rename_i rhsValue heq3
    have h1b : Except.ok (⟨brentSolve p K1v K2v rhsValue, K1v, K2v⟩ : SolverResult)
        = .ok r1 := h1
    injection h1b with h1c
    rcases hE : expandBracket (fun W => F_of_W W p K1v K2v) (F_of_W 0 p K1v K2v)
        MAX_BRACKET_TRIES (max EPSILON rhsValue) with e | hi
    · have hb : solveWTBisection p = .error e := by
        unfold solveWTBisection
        rw [heq1, heq2, heq3]
        simp only [hE]
      rw [hb] at h2
      exact absurd h2 (by simp)
    · have hb : solveWTBisection p
          = .ok ⟨bisectLoop (fun W => F_of_W W p K1v K2v)
              MAX_BISECTION_ITERATIONS 0 hi 0, K1v, K2v⟩ := by
        unfold solveWTBisection
        rw [heq1, heq2, heq3]
        simp only [hE]
      rw [hb] at h2
      injection h2 with h2c
      rw [← h1c, ← h2c]
      exact ⟨rfl, rfl⟩

/-- Witness for C3 at pSimple: both paths succeed (both return WT = 50 here)
and the K-coefficients agree. -/
theorem solver_paths_relation_witness :
    solveWTOptimized pSimple true = .ok ⟨50, 1, 0⟩ ∧
    solveWTBisection pSimple = .ok ⟨50, 1, 0⟩ ∧
    ((SolverResult.mk 50 1 0).K1v = (SolverResult.mk 50 1 0).K1v ∧
      (SolverResult.mk 50 1 0).K2v = (SolverResult.mk 50 1 0).K2v) :=
  ⟨opt_pSimple, bis_pSimple,
    (solver_paths_relation pSimple).2 ⟨50, 1, 0⟩ ⟨50, 1, 0⟩ opt_pSimple bis_pSimple⟩

/-- C3 (counterexample): at pEx both paths succeed but return different WT:
both loops exhaust, the optimized path on bracket [0, 2e15] after 50
iterations, the fallback on [0, 1e15] after 80, and the two exhausted
midpoints (odd/2^50 versus odd/2^80 times 1e15) cannot coincide. -/
theorem solver_paths_differ_cex :
    (solveWTOptimized pEx true).isOk = true ∧ (solveWTBisection pEx).isOk = true ∧
    solveWTOptimized pEx true ≠ solveWTBisection pEx := by
  refine ⟨by rw [opt_pEx]; rfl, by rw [bis_pEx]; rfl, ?_⟩
  rw [opt_pEx, bis_pEx]
  intro h
  injection h with h2
  exact optEx_ne_wtEx (congrArg SolverResult.WT h2)

/-! ## C6: exhaustion returns the final bracket's midpoint -/

/-- C6: if none of the 80 bisection iterations meets |F(mid)| < EPSILON, the
loop of solveWTBisection returns the midpoint of the final bracket — the
bracket entering its last (80th) iteration. -/
theorem bisection_exhaustion_midpoint (p : Params) (K1v K2v lo hi mid0 : ℝ)
    (h : noTolBreak (fun W => F_of_W W p K1v K2v) (lo, hi) MAX_BISECTION_ITERATIONS) :
    bisectLoop (fun W => F_of_W W p K1v K2v) MAX_BISECTION_ITERATIONS lo hi mid0 =
      midOf ((bisectStep (fun W => F_of_W W p K1v K2v))^[MAX_BISECTION_ITERATIONS - 1]
        (lo, hi)) :=
  bisectLoop_exhaust _ MAX_BISECTION_ITERATIONS (lo, hi) mid0
    (by norm_num [MAX_BISECTION_ITERATIONS]) h

/-- Witness for C6: the run at pEx exhausts all 80 iterations. -/
theorem bisection_exhaustion_midpoint_witness :
    noTolBreak fEx (0, 1e15) MAX_BISECTION_ITERATIONS ∧
    bisectLoop fEx MAX_BISECTION_ITERATIONS 0 1e15 0 =
      midOf ((bisectStep fEx)^[MAX_BISECTION_ITERATIONS - 1] (0, 1e15)) := by
  have hnb : noTolBreak fEx (0, 1e15) MAX_BISECTION_ITERATIONS :=
    bisect_noTolBreak_pEx fEx F_pEx
  exact ⟨hnb, bisection_exhaustion_midpoint pEx 2 0 0 1e15 0 hnb⟩

/-! ## C2: validation behaviour of toParams -/

/-- C2 (counterexample): toParams does not reject gamma = 0; with every raw
input finite and gamma = 0 it succeeds (the divisions by gamma silently produce
non-finite derived values in JavaScript, there is no gamma check in the
source). -/
theorem toParams_gamma_zero_succeeds :
    rawG0.gamma = JsNum.fin 0 ∧ (toParams rawG0).isOk = true := by
  constructor
  · rfl
  · rfl

/-- C2 (amended): toParams fails (with the validation error for the first
offending input) exactly when some raw input is non-finite; gamma = 0 is not
rejected. -/
theorem toParams_ok_iff_allFinite (inp : RawInputs) :
    (toParams inp).isOk = inp.allFinite := by
  unfold toParams RawInputs.allFinite
  cases hr : inp.r.isFinite
  · simp [Except.isOk, Except.toBool]
  cases h2 : inp.rho.isFinite
  · simp [Except.isOk, Except.toBool]
  cases h3 : inp.gamma.isFinite
  · simp [Except.isOk, Except.toBool]
  cases h4 : inp.eta.isFinite
  · simp [Except.isOk, Except.toBool]
  cases h5 : inp.T1.isFinite
  · simp [Except.isOk, Except.toBool]
  cases h6 : inp.T2.isFinite
  · simp [Except.isOk, Except.toBool]
  cases h7 : inp.beta.isFinite
  · simp [Except.isOk, Except.toBool]
  cases h8 : inp.w0.isFinite
  · simp [Except.isOk, Except.toBool]
  cases h9 : inp.y.isFinite
  · simp [Except.isOk, Except.toBool]
  cases h10 : inp.zeta.isFinite
  · simp [Except.isOk, Except.toBool]
  cases h11 : inp.tau.isFinite
  · simp [Except.isOk, Except.toBool]
  · simp [Except.isOk, Except.toBool]

/-! ## C4: the solver requires r distinct from 0 -/

/-- C4: RHS raises the InvalidParameterError for r = 0 (division by r in the
y/r transform), and hence so does the terminal-wealth solver for any
positive-beta parameter set, on either solver path. -/
theorem solver_requires_nonzero_r :
    (∀ p : Params, p.r = 0 → RHS p = .error rErr) ∧
    (∀ (p : Params) (ml : Bool), p.r = 0 → 0 < p.beta → solveWT p ml = .error rErr) := by
  have hRHS : ∀ p : Params, p.r = 0 → RHS p = .error rErr := by
    intro p h
    have hlt : |p.r| < EPSILON := by
      rw [h]
      unfold EPSILON
      norm_num
    unfold RHS
    rw [if_pos hlt]
    rfl
  refine ⟨hRHS, ?_⟩
  intro p ml h hb
  have hb2 : ¬ p.beta ≤ 0 := not_le.mpr hb
  unfold solveWT solveWTOptimized K1 K2
  rw [if_neg hb2, if_neg hb2, hRHS p h]

/-- Witness for C4 at a concrete parameter set. -/
theorem solver_requires_nonzero_r_witness :
    pRzero.r = 0 ∧ 0 < pRzero.beta ∧
    RHS pRzero = .error rErr ∧ solveWT pRzero true = .error rErr := by
  have h1 : pRzero.r = 0 := rfl
  have h2 : (0:ℝ) < pRzero.beta := by norm_num [pRzero]
  exact ⟨h1, h2, solver_requires_nonzero_r.1 pRzero h1,
    solver_requires_nonzero_r.2 pRzero true h1 h2⟩

/-! ## C10: tiny non-zero interest rates are rejected too -/

/-- C10: the r-guard compares |r| against EPSILON = 1e-10, so every r with
0 < |r| < 1e-10 is rejected at the solver interface with the same
non-zero-interest-rate error, not only r = 0. -/
theorem solver_rejects_tiny_r (p : Params) (ml : Bool) (h0 : 0 < |p.r|)
    (h1 : |p.r| < 1e-10) (hb : 0 < p.beta) : solveWT p ml = .error rErr := by
  have hb2 : ¬ p.beta ≤ 0 := not_le.mpr hb
  have hr : RHS p = .error rErr := by
    have hlt : |p.r| < EPSILON := by
      unfold EPSILON
      exact h1
    unfold RHS
    rw [if_pos hlt]
    rfl
  unfold solveWT solveWTOptimized K1 K2
  rw [if_neg hb2, if_neg hb2, hr]

/-- Witness for C10 at r = 1e-11. -/
theorem solver_rejects_tiny_r_witness :
    0 < |pRtiny.r| ∧ |pRtiny.r| < 1e-10 ∧ 0 < pRtiny.beta ∧
    solveWT pRtiny false = .error rErr := by
  have h0 : 0 < |pRtiny.r| := by
    show 0 < |(1e-11 : ℝ)|
    rw [abs_of_pos (by norm_num)]
    norm_num
  have h1 : |pRtiny.r| < 1e-10 := by
    show |(1e-11 : ℝ)| < 1e-10
    rw [abs_of_pos (by norm_num)]
    norm_num
  have hb : (0:ℝ) < pRtiny.beta := by norm_num [pRtiny]
  exact ⟨h0, h1, hb, solver_rejects_tiny_r pRtiny false h0 h1 hb⟩

/-! ## C5: the two branches of the annuity function -/

/-- C5: for every derived parameter set and horizon H, P(H) = H exactly when
|kappa| < 1e-10, and P(H) = (1 - exp(-kappa*H))/kappa otherwise. -/
theorem annuity_function_branches (p : Params) (H : ℝ) :
    (|p.kappa| < 1e-10 → p.P H = H) ∧
    (¬ |p.kappa| < 1e-10 → p.P H = (1 - Real.exp (-p.kappa * H)) / p.kappa) := by
  constructor <;> intro h <;> simp [Params.P, EPSILON, h]

/-- Witness for C5: one parameter set in each branch. -/
theorem annuity_function_branches_witness :
    (|pKzero.kappa| < 1e-10 ∧ pKzero.P 5 = 5) ∧
    (¬ |pKone.kappa| < 1e-10 ∧
      pKone.P 2 = (1 - Real.exp (-pKone.kappa * 2)) / pKone.kappa) := by
  have h0 : |pKzero.kappa| < 1e-10 := by
    simp [Params.kappa, pKzero]
    norm_num
  have h1 : ¬ |pKone.kappa| < 1e-10 := by
    simp [Params.kappa, pKone]
    norm_num
  exact ⟨⟨h0, (annuity_function_branches pKzero 5).1 h0⟩,
    ⟨h1, (annuity_function_branches pKone 2).2 h1⟩⟩

/-! ## C7: invariants of the times sequence -/

/-- Zero total horizon: T1 = T2 = 0. -/
def pT0 : Params := ⟨1, 0, 1, 1, 0, 0, 1, 100, 10, 0, 0.3⟩

/-- C7 (counterexample): the claim quantifies over every parameter set, but
with T1 = T2 = 0 all sample times are 0, so the times sequence is not strictly
increasing. -/
theorem times_not_strictly_increasing_cex :
    (trajectories pT0 0 0 0 1).times = [0, 0] ∧
    ¬ List.Pairwise (· < ·) (trajectories pT0 0 0 0 1).times := by
  have h : (trajectories pT0 0 0 0 1).times = [0, 0] := by
    simp only [trajectories]
    rw [show List.range 2 = [0, 1] from rfl]
    simp [pT0]
  refine ⟨h, ?_⟩
  rw [h]
  simp

/-- C7 (amended): for n ≥ 1 and positive total horizon T1 + T2, the times
sequence of a trajectory has length n+1, is strictly increasing, starts at 0
and ends at T1 + T2.  (The strict-increase part of the claim fails when
T1 + T2 is not positive.) -/
theorem times_sequence_invariants (p : Params) (WT A B : ℝ) (n : ℕ)
    (hn : 1 ≤ n) (hT : 0 < p.T1 + p.T2) :
    (trajectories p WT A B n).times.length = n + 1 ∧
    List.Pairwise (· < ·) (trajectories p WT A B n).times ∧
    (trajectories p WT A B n).times.getD 0 0 = 0 ∧
    (trajectories p WT A B n).times.getD n 0 = p.T1 + p.T2 := by
  have hn0 : (0:ℝ) < n := by
    have : (1:ℝ) ≤ n := by exact_mod_cast hn
    linarith
  have htimes : (trajectories p WT A B n).times
      = (List.range (n + 1)).map (fun i : ℕ => (p.T1 + p.T2) * i / n) := by
    simp only [trajectories]
  refine ⟨?_, ?_, ?_, ?_⟩
  · rw [htimes]; simp
  · rw [htimes]
    refine List.pairwise_map.mpr ?_
    refine (List.pairwise_lt_range (n + 1)).imp ?_
    intro i j hij
    have hij2 : (i:ℝ) < j := by exact_mod_cast hij
    have : (p.T1 + p.T2) * i < (p.T1 + p.T2) * j := by
      exact mul_lt_mul_of_pos_left hij2 hT
    exact div_lt_div_of_pos_right this hn0
  · rw [htimes, List.getD_eq_getElem?_getD, List.getElem?_map,
      List.getElem?_range (Nat.succ_pos n)]
    simp
  · rw [htimes, List.getD_eq_getElem?_getD, List.getElem?_map,
      List.getElem?_range (Nat.lt_succ_self n)]
    simp only [Option.map_some', Option.getD_some]
    field_simp

/-- Witness for C7 (amended) at the spec's concrete scenario with n = 10. -/
theorem times_sequence_invariants_witness :
    (1 ≤ 10 ∧ 0 < pKzero.T1 + pKzero.T2) ∧
    (trajectories pKzero 1 1 1 10).times.length = 11 ∧
    List.Pairwise (· < ·) (trajectories pKzero 1 1 1 10).times ∧
    (trajectories pKzero 1 1 1 10).times.getD 0 0 = 0 ∧
    (trajectories pKzero 1 1 1 10).times.getD 10 0 = pKzero.T1 + pKzero.T2 := by
  have hT : (0:ℝ) < pKzero.T1 + pKzero.T2 := by norm_num [pKzero]
  exact ⟨⟨by norm_num, hT⟩, times_sequence_invariants pKzero 1 1 1 10 (by norm_num) hT⟩

/-! ## C9: transition wealth values of the trajectory -/

/-- C9: the trajectory reports W1m = X1m - y/r and W1p = X1p - y/r with
X1m = exp(r*T1)*(X0 - A*P(T1)) and X1p = (1-tau)*X1m + tau*(y/r); and any
sample whose time is exactly T1 has wealth exactly equal to W1p (the post-levy
branch runs with dt = 0, and P(0) = 0 in both annuity branches). -/
theorem trajectory_transition_wealth (p : Params) (WT A B : ℝ) (n i : ℕ)
    (hi : i < n + 1) (ht : (p.T1 + p.T2) * i / n = p.T1) :
    (trajectories p WT A B n).W1m
        = Real.exp (p.r * p.T1) * ((p.w0 + p.y / p.r) - A * p.P p.T1) - p.y / p.r ∧
    (trajectories p WT A B n).W1p
        = (1 - p.tau) * (Real.exp (p.r * p.T1) * ((p.w0 + p.y / p.r) - A * p.P p.T1))
            + p.tau * (p.y / p.r) - p.y / p.r ∧
    (trajectories p WT A B n).W.getD i 0 = (trajectories p WT A B n).W1p := by
  have hP0 : p.P 0 = 0 := by
    unfold Params.P
    split_ifs
    · rfl
    · simp
  refine ⟨rfl, rfl, ?_⟩
  have hW : (trajectories p WT A B n).W
      = ((List.range (n + 1)).map (fun j : ℕ => (p.T1 + p.T2) * j / n)).map
          (fun t => (trajSample p A B (p.w0 + p.y / p.r)
            ((1 - p.tau) * (Real.exp (p.r * p.T1) * ((p.w0 + p.y / p.r) - A * p.P p.T1))
              + p.tau * (p.y / p.r)) t).2) := by
    simp only [trajectories]
  have hW1p : (trajectories p WT A B n).W1p
      = ((1 - p.tau) * (Real.exp (p.r * p.T1) * ((p.w0 + p.y / p.r) - A * p.P p.T1))
          + p.tau * (p.y / p.r)) - p.y / p.r := by
    simp only [trajectories]
  rw [hW, hW1p, List.map_map, List.getD_eq_getElem?_getD, List.getElem?_map,
    List.getElem?_range hi]
  simp only [Option.map_some', Option.getD_some, Function.comp_apply]
  rw [ht]
  unfold trajSample
  rw [if_neg (by unfold EPSILON; intro hcon; linarith)]
  simp [hP0]

/-- Witness for C9: T1 = 2, T2 = 3, n = 5, the sample at index 2 has time
exactly T1. -/
theorem trajectory_transition_wealth_witness :
    ((pKzero.T1 + pKzero.T2) * (2:ℕ) / (5:ℕ) = pKzero.T1) ∧
    (trajectories pKzero 1 1 1 5).W.getD 2 0 = (trajectories pKzero 1 1 1 5).W1p := by
  have ht : (pKzero.T1 + pKzero.T2) * ((2:ℕ):ℝ) / ((5:ℕ):ℝ) = pKzero.T1 := by
    show ((2:ℝ) + 3) * ((2:ℕ):ℝ) / ((5:ℕ):ℝ) = (2:ℝ)
    push_cast
    norm_num
  exact ⟨ht, (trajectory_transition_wealth pKzero 1 1 1 5 2 (by norm_num) ht).2.2⟩

/-! ## C8: the sweep restores tau -/

lemma tauSweepStep_snd (ml : Bool) (st : SweepResult × Params) (i n : ℕ) :
    (tauSweepStep ml st i n).2 = { st.2 with tau := ((i : ℝ) / (n : ℝ)) * 0.8 } := rfl

lemma sweep_fold_snd (ml : Bool) (n : ℕ) :
    ∀ (l : List ℕ) (st : SweepResult × Params),
      (l.foldl (fun st i => tauSweepStep ml st i n) st).2 = st.2 ∨
      ∃ t, (l.foldl (fun st i => tauSweepStep ml st i n) st).2 = { st.2 with tau := t } := by
  intro l
  induction l with
  | nil => intro st; exact .inl rfl
  | cons a l ih =>
    intro st
    right
    rcases ih (tauSweepStep ml st a n) with h | ⟨t, h⟩
    · exact ⟨_, by rw [List.foldl_cons, h, tauSweepStep_snd]⟩
    · refine ⟨t, ?_⟩
      rw [List.foldl_cons, h, tauSweepStep_snd]

/-- C8: after tauSweep returns, the caller's parameter object is exactly what
it was before the call (tau is restored even though the loop overwrote it at
every sweep point, and errors at sweep points are caught inside the loop). -/
theorem tauSweep_restores_params (p : Params) (n : ℕ) (ml : Bool) :
    (tauSweep p n ml).2 = p := by
  show { (List.foldl (fun st i => tauSweepStep ml st i n) ⟨⟨[], [], [], []⟩, p⟩
      (List.range (n + 1))).2 with tau := p.tau } = p
  rcases sweep_fold_snd ml n (List.range (n + 1)) ⟨⟨[], [], [], []⟩, p⟩ with h | ⟨t, h⟩
  · rw [h]
  · rw [h]

end
